import Mathlib

/-!
Shallow embedding of `src/pkcs7/src/signed_data_content.rs`, the PKCS#7 /
CMS signed-data content type, together with the DER primitive codec it
relies on.

The structures and decoders of `signed_data_content.rs` (Version, Content,
EncapsulatedContentInfo, SignedDataContent) are translated directly from
the source, line references given at each definition.  The DER primitives
(byte reader, tag and length parsing, the length-bounded nested reader,
the non-consuming tag peek, the raw INTEGER codec and the SET OF codec)
live in the `der` crate, outside `src/`; those are modelled from the
spec's collaborator contract (spec sections 3, 4 and 6) and are marked
`Modelled from the spec:` in their doc comments.

Bytes are natural numbers; the input to a decoder is a `List Nat` and a
decoder returns the decoded value together with the unconsumed tail.  The
Rust `unimplemented!()` macro panics at runtime, so decoding outcomes are
three-valued: a typed success, a typed error, or a panic.
-/

namespace Pkcs7

/-- A DER tag, modelled by its identifier byte. -/
structure Tag where
  byte : Nat
deriving DecidableEq

/-- The universal INTEGER tag (0x02). -/
def Tag.integer : Tag := ⟨2⟩

/-- The universal OCTET STRING tag (0x04). -/
def Tag.octetString : Tag := ⟨4⟩

/-- The universal OBJECT IDENTIFIER tag (0x06). -/
def Tag.oid : Tag := ⟨6⟩

/-- The universal constructed SEQUENCE tag (0x30). -/
def Tag.sequence : Tag := ⟨48⟩

/-- The universal constructed SET tag (0x31). -/
def Tag.set : Tag := ⟨49⟩

/-- The context-specific constructed tag number 0 (0xA0), used by the
EXPLICIT wrapper around `content`. -/
def Tag.context0 : Tag := ⟨160⟩

/-- Typed decode errors, following the spec's error taxonomy (spec section 7).
`valueError t` embeds the der crate `value_error` at tag `t`; at the INTEGER
tag it is the taxonomy's `InvalidVersion`. -/
inductive DError where
  | prematureEof
  | malformedTag
  | malformedLength
  | valueError (tag : Tag)
  | unexpectedTag (expected actual : Tag)
  | trailingData
  | nonCanonicalSetOrdering
deriving DecidableEq

/-- Outcome of running a decoder: success with the unconsumed tail, a typed
error, or a runtime panic (the Rust `unimplemented!()` macro). -/
inductive DResult (α : Type) where
  | ok : α → List Nat → DResult α
  | err : DError → DResult α
  | panicked : DResult α
deriving DecidableEq

/-- A decoder: consumes a prefix of the byte list. -/
def DecodeM (α : Type) : Type := List Nat → DResult α

/-- Decoder returning `a` without consuming input. -/
def pureD {α : Type} (a : α) : DecodeM α := fun s => .ok a s

/-- Decoder failing with error `e`. -/
def failD {α : Type} (e : DError) : DecodeM α := fun _ => .err e

/-- Sequencing of decoders; errors and panics propagate. -/
def bindD {α β : Type} (m : DecodeM α) (f : α → DecodeM β) : DecodeM β := fun s =>
  match m s with
  | .ok a s1 => f a s1
  | .err e => .err e
  | .panicked => .panicked

/-- Modelled from the spec: read one byte from the input (spec section 6,
byte-bounded reads; past the end of the scope the read fails, never reads
out of bounds). -/
def readByte : DecodeM Nat := fun s =>
  match s with
  | [] => .err .prematureEof
  | b :: rest => .ok b rest

/-- Modelled from the spec: the non-consuming tag peek of the DER primitive
codec (spec section 6: inspect the next tag without consuming it).  Long-form
tag numbers (low five bits all set) are rejected. -/
def peekTag : DecodeM Tag := fun s =>
  match s with
  | [] => .err .prematureEof
  | b :: _ => if b % 32 = 31 then .err .malformedTag else .ok ⟨b⟩ s

/-- Modelled from the spec: consuming tag parse of the DER primitive codec
(spec section 6 tag/length parsing). -/
def readTag : DecodeM Tag := fun s =>
  match s with
  | [] => .err .prematureEof
  | b :: rest => if b % 32 = 31 then .err .malformedTag else .ok ⟨b⟩ rest

/-- Reads `k` big-endian base-256 digits, accumulating onto `acc`. -/
def readLenBytes : Nat → Nat → DecodeM Nat
  | 0, acc => pureD acc
  | k + 1, acc => bindD readByte (fun b => readLenBytes k (acc * 256 + b))

/-- Modelled from the spec: DER definite length parsing, minimal-length
required (spec section 6: all lengths definite-form and minimal-length;
indefinite form and padded long forms are `MalformedLength`). -/
def readLength : DecodeM Nat :=
  bindD readByte (fun b =>
    if b < 128 then pureD b
    else if b = 128 then failD .malformedLength
    else
      bindD readByte (fun b0 =>
        if b0 = 0 then failD .malformedLength
        else
          bindD (readLenBytes (b - 129) b0) (fun n =>
            if b = 129 ∧ n < 128 then failD .malformedLength else pureD n)))

/-- A decoded DER header: tag and body length. -/
structure Header where
  tag : Tag
  len : Nat
deriving DecidableEq

/-- Modelled from the spec: header = tag then length (spec section 6). -/
def readHeader : DecodeM Header :=
  bindD readTag (fun t => bindD readLength (fun n => pureD ⟨t, n⟩))

/-- Modelled from the spec: read exactly `n` bytes; if fewer remain the read
fails (spec section 5: every nested length is validated against the bytes
actually remaining; reject, never read out of bounds). -/
def readBytes (n : Nat) : DecodeM (List Nat) := fun s =>
  if n ≤ s.length then .ok (s.take n) (s.drop n) else .err .prematureEof

/-- Finishing a length-bounded scope: a success must have consumed the whole
scope (`outer` is what remains of the enclosing input), leftover scope bytes
are trailing data, and errors and panics propagate. -/
def nestedFinish {α : Type} (outer : List Nat) (r : DResult α) : DResult α :=
  match r with
  | .ok a [] => .ok a outer
  | .ok _ (_ :: _) => .err .trailingData
  | .err e => .err e
  | .panicked => .panicked

/-- Modelled from the spec: the length-bounded nested reader (spec section 6).
The inner decoder runs over exactly the scope's bytes; bytes of the scope it
leaves unconsumed are rejected under the trailing-data rule. -/
def readNested {α : Type} (n : Nat) (f : DecodeM α) : DecodeM α :=
  bindD (readBytes n) (fun body => fun s => nestedFinish s (f body))

/-- Modelled from the spec: the blanket decode for a fixed-tag type — read
the header, check the tag, then run the type's value decoder (the der crate
`Decode` blanket impl over `DecodeValue + FixedTag`). -/
def decodeFixed {α : Type} (expected : Tag) (dv : Header → DecodeM α) : DecodeM α :=
  bindD readHeader (fun h => fun s =>
    if h.tag = expected then dv h s else .err (.unexpectedTag expected h.tag))

/-- Interpreting an INTEGER body as one unsigned byte: exactly the minimal
DER INTEGER bodies denoting 0..255 are accepted, i.e. `[b]` with `b < 0x80`,
or `[0x00, b]` with `0x80 ≤ b < 0x100`; anything else (negative, oversized
or non-minimal) is a value error at the INTEGER tag. -/
def u8Finish (body : List Nat) (s : List Nat) : DResult Nat :=
  match body with
  | [b] => if b < 128 then .ok b s else .err (.valueError .integer)
  | [b0, b1] =>
    if b0 = 0 ∧ 128 ≤ b1 ∧ b1 < 256 then .ok b1 s else .err (.valueError .integer)
  | _ => .err (.valueError .integer)

/-- Modelled from the spec: the raw INTEGER decoder specialised to one
unsigned byte (`u8::decode_value` of the der crate): read the header's
length worth of body bytes and interpret them as one unsigned byte. -/
def u8.decodeValue (h : Header) : DecodeM Nat :=
  bindD (readBytes h.len) (fun body => fun s => u8Finish body s)

/-- `Version` (src lines 20-36): the signed-data syntax version, values 1-5. -/
inductive Version where
  | v1
  | v2
  | v3
  | v4
  | v5
deriving DecidableEq

/-- `From<Version> for u8` (src lines 42-46). -/
def Version.toU8 : Version → Nat
  | .v1 => 1
  | .v2 => 2
  | .v3 => 3
  | .v4 => 4
  | .v5 => 5

/-- `TryFrom<u8> for Version` (src lines 48-60): bytes 1-5 map to the
variants, anything else is `Self::TAG.value_error()` (the spec taxonomy's
`InvalidVersion`).  The source `match` on the byte is rendered as an
if-chain. -/
def Version.tryFrom (b : Nat) : Except DError Version :=
  if b = 1 then .ok .v1
  else if b = 2 then .ok .v2
  else if b = 3 then .ok .v3
  else if b = 4 then .ok .v4
  else if b = 5 then .ok .v5
  else .error (.valueError .integer)

/-- Lifting a fallible pure computation into a decoder; the der crate `?`
operator on a `der::Result`. -/
def liftExcept {α : Type} (r : Except DError α) : DecodeM α := fun s =>
  match r with
  | .ok a => .ok a s
  | .error e => .err e

/-- `DecodeValue for Version` (src lines 62-66): decode the body through the
u8 decoder, then range-check via `TryFrom`. -/
def Version.decodeValue (h : Header) : DecodeM Version :=
  bindD (u8.decodeValue h) (fun b => liftExcept (Version.tryFrom b))

/-- `FixedTag for Version` is `Tag::Integer` (src lines 38-40); this is the
blanket `Decode` entry point. -/
def Version.decode : DecodeM Version := decodeFixed .integer Version.decodeValue

/-- Modelled from the spec: an object identifier is opaque, compared only
for equality (spec section 3); it is held as its encoded body bytes. -/
structure ObjectIdentifier where
  bytes : List Nat
deriving DecidableEq

/-- Modelled from the spec: raw OBJECT IDENTIFIER decode of the DER
primitive codec (spec section 6); the body must be nonempty. -/
def ObjectIdentifier.decodeValue (h : Header) : DecodeM ObjectIdentifier :=
  bindD (readBytes h.len) (fun body =>
    if body = [] then failD (.valueError .oid) else pureD ⟨body⟩)

/-- Modelled from the spec: tagged OBJECT IDENTIFIER decode. -/
def ObjectIdentifier.decode : DecodeM ObjectIdentifier :=
  decodeFixed .oid ObjectIdentifier.decodeValue

/-- `OctetStringRef` (used at src line 100): an octet string held as its
bytes. -/
structure OctetStringRef where
  bytes : List Nat
deriving DecidableEq

/-- `Content` (src lines 97-104): the two wire forms of the encapsulated
payload, each holding an optional value. -/
inductive Content where
  | octetString : Option OctetStringRef → Content
  | custom : Option (List Nat) → Content
deriving DecidableEq

/-- `Decode for Content` (src lines 106-113): peeks the next tag and then
hits `unimplemented!()` in both match arms, so the running code panics on
every input whose next tag is readable; only a failed peek (empty input)
yields a typed error. -/
def Content.decode : DecodeM Content := fun s =>
  match peekTag s with
  | .ok t _ => if t = Tag.octetString then DResult.panicked else DResult.panicked
  | .err e => .err e
  | .panicked => .panicked

/-- `EncapsulatedContentInfo` (src lines 122-129): content type plus the
content slot.  Note the `content` field is a plain `Content`, not an
optional one. -/
structure EncapsulatedContentInfo where
  content_type : ObjectIdentifier
  content : Content
deriving DecidableEq

/-- `DecodeValue for EncapsulatedContentInfo` (src lines 135-147): inside the
length-bounded scope, decode the content type and then unconditionally
decode a `Content`. -/
def EncapsulatedContentInfo.decodeValue (h : Header) : DecodeM EncapsulatedContentInfo :=
  readNested h.len
    (bindD ObjectIdentifier.decode (fun ct =>
      bindD Content.decode (fun c => pureD ⟨ct, c⟩)))

/-- `FixedTag for EncapsulatedContentInfo` is `Tag::Sequence` (src lines
131-133); this is the blanket `Decode` entry point. -/
def EncapsulatedContentInfo.decode : DecodeM EncapsulatedContentInfo :=
  decodeFixed .sequence EncapsulatedContentInfo.decodeValue

/-- Little-endian base-256 digits of `n` (Mathlib `Nat.digits`). -/
def leBytes (n : Nat) : List Nat := Nat.digits 256 n

/-- Big-endian base-256 digits of `n`; empty exactly when `n = 0`. -/
def beBytes (n : Nat) : List Nat := (leBytes n).reverse

/-- DER definite-length encoding of length `n`: short form below 128,
otherwise long form over the minimal big-endian digits. -/
def encodeLength (n : Nat) : List Nat :=
  if n < 128 then [n] else (128 + (beBytes n).length) :: beBytes n

/-- Modelled from the spec: `DigestAlgorithmIdentifier` (src line 78 aliases
`AlgorithmIdentifierRef`) is an opaque structure delegated to an external
codec (spec sections 3 and 6); only its own encoded bytes matter, for SET OF
ordering.  It is held as a tag and body. -/
structure AlgorithmIdentifierRef where
  tag : Tag
  body : List Nat
deriving DecidableEq

/-- The full encoded bytes (tag, length, body) of an algorithm identifier;
this is the byte sequence DER SET OF ordering compares. -/
def AlgorithmIdentifierRef.encodedBytes (a : AlgorithmIdentifierRef) : List Nat :=
  a.tag.byte :: encodeLength a.body.length ++ a.body

/-- Modelled from the spec: the opaque algorithm-identifier decoder (spec
section 6: an opaque `decode(reader) -> T` black box); it reads one complete
DER value. -/
def AlgorithmIdentifierRef.decode : DecodeM AlgorithmIdentifierRef :=
  bindD readHeader (fun h => bindD (readBytes h.len) (fun body => pureD ⟨h.tag, body⟩))

/-- Strict byte-lexicographic order on byte lists (a proper prefix is
smaller), the DER SET OF element order. -/
def lexLt : List Nat → List Nat → Bool
  | [], [] => false
  | [], _ :: _ => true
  | _ :: _, [] => false
  | a :: as, b :: bs => if a < b then true else if b < a then false else lexLt as bs

/-- Strictly ascending check over a list of encodings: canonical DER SET OF
order, byte-identical duplicates rejected. -/
def ascendingStrict : List (List Nat) → Bool
  | [] => true
  | [_] => true
  | a :: b :: rest => lexLt a b && ascendingStrict (b :: rest)

/-- Reads set elements until the scope is exhausted; `fuel` bounds the
recursion (each element consumes at least its tag byte, so fuel equal to the
scope length suffices). -/
def decodeElems : Nat → DecodeM (List AlgorithmIdentifierRef)
  | 0 => fun s =>
    match s with
    | [] => .ok [] []
    | _ :: _ => .err .prematureEof
  | fuel + 1 => fun s =>
    match s with
    | [] => .ok [] []
    | _ :: _ =>
      (bindD AlgorithmIdentifierRef.decode (fun a =>
        bindD (decodeElems fuel) (fun rest => pureD (a :: rest)))) s

/-- The strict-mode set validation applied to the outcome of reading the
elements: a successfully read list must be strictly ascending in its
elements' encoded bytes, else `NonCanonicalSetOrdering`. -/
def setFinish (r : DResult (List AlgorithmIdentifierRef)) :
    DResult (List AlgorithmIdentifierRef) :=
  match r with
  | .ok algs rest =>
    if ascendingStrict (algs.map AlgorithmIdentifierRef.encodedBytes)
    then .ok algs rest
    else .err .nonCanonicalSetOrdering
  | .err e => .err e
  | .panicked => .panicked

/-- Modelled from the spec: `SetOfVec` decoding in strict mode (spec section
4.4 step 2): decode elements to the end of the scope, then reject any set
whose encoded element order is not ascending-canonical or that holds
byte-identical duplicates, with `NonCanonicalSetOrdering`. -/
def SetOfVecAlg.decodeValue (h : Header) : DecodeM (List AlgorithmIdentifierRef) :=
  readNested h.len (fun body => setFinish (decodeElems body.length body))

/-- Modelled from the spec: the SET-tagged entry point of the set codec. -/
def SetOfVecAlg.decode : DecodeM (List AlgorithmIdentifierRef) :=
  decodeFixed .set SetOfVecAlg.decodeValue

/-- `SignedDataContent` (src lines 173-184): version, digest-algorithm set
and encapsulated content; certificates, crls and signerInfos are absent from
the source structure (its TODO at src line 183). -/
structure SignedDataContent where
  version : Version
  digest_algorithms : List AlgorithmIdentifierRef
  encapsulated_content_info : EncapsulatedContentInfo
deriving DecidableEq

/-- `DecodeValue for SignedDataContent` (src lines 186-199): inside the
length-bounded scope decode, in order, the version, the digest-algorithm
set, and the encapsulated content info. -/
def SignedDataContent.decodeValue (h : Header) : DecodeM SignedDataContent :=
  readNested h.len
    (bindD Version.decode (fun v =>
      bindD SetOfVecAlg.decode (fun das =>
        bindD EncapsulatedContentInfo.decode (fun eci =>
          pureD ⟨v, das, eci⟩))))

/-- Modelled from the spec: the SEQUENCE-tagged decode entry point for the
signed-data SEQUENCE (spec sections 4.4 and 6); the corresponding `Sequence`
impl at src lines 201-212 is commented out, so only its value decoder is
active source code. -/
def SignedDataContent.decode : DecodeM SignedDataContent :=
  decodeFixed .sequence SignedDataContent.decodeValue

/-- Modelled from the spec: minimal DER INTEGER encoding of the version (the
spec section 4.1 encoder; values 1-5 are single-byte bodies). -/
def Version.encodedBytes (v : Version) : List Nat := [2, 1, v.toU8]

/-- Modelled from the spec: OBJECT IDENTIFIER encoding (spec section 6 raw
OID codec). -/
def ObjectIdentifier.encodedBytes (o : ObjectIdentifier) : List Nat :=
  6 :: encodeLength o.bytes.length ++ o.bytes

/-- Modelled from the spec: OCTET STRING encoding (spec section 6 raw octet
string codec). -/
def OctetStringRef.encodedBytes (o : OctetStringRef) : List Nat :=
  4 :: encodeLength o.bytes.length ++ o.bytes

/-- Modelled from the spec: the encoder of `EncapsulatedContentInfo` (spec
section 4.2): content type first, then, when content is present, the stored
form wrapped in an EXPLICIT context-tag-0 wrapper; when absent, nothing. -/
def EncapsulatedContentInfo.encodedBytes (e : EncapsulatedContentInfo) : List Nat :=
  let inner : List Nat :=
    match e.content with
    | .octetString none => []
    | .custom none => []
    | .octetString (some o) =>
      160 :: encodeLength o.encodedBytes.length ++ o.encodedBytes
    | .custom (some raw) => 160 :: encodeLength raw.length ++ raw
  let body := e.content_type.encodedBytes ++ inner
  48 :: encodeLength body.length ++ body

/-- Modelled from the spec: the encoder of `SignedDataContent` (spec section
4.4 encode; the source's own `Sequence` encode impl at src lines 201-212 is
commented out): fields in fixed order inside a SEQUENCE, the set under a SET
header, lengths computed bottom-up. -/
def SignedDataContent.specEncode (v : SignedDataContent) : List Nat :=
  let setBody := (v.digest_algorithms.map AlgorithmIdentifierRef.encodedBytes).flatten
  let setTlv := 49 :: encodeLength setBody.length ++ setBody
  let body := v.version.encodedBytes ++ setTlv ++ v.encapsulated_content_info.encodedBytes
  48 :: encodeLength body.length ++ body

/-- Test-harness construction: a signed-data SEQUENCE holding an INTEGER
version byte, a SET of the given algorithm identifiers, and then arbitrary
further bytes inside the SEQUENCE body. -/
def mkSignedData (v : Nat) (algs : List AlgorithmIdentifierRef) (tail : List Nat) : List Nat :=
  let setBody := (algs.map AlgorithmIdentifierRef.encodedBytes).flatten
  let body := 2 :: 1 :: v :: (49 :: (encodeLength setBody.length ++ (setBody ++ tail)))
  48 :: encodeLength body.length ++ body

/-- Test-harness construction: the DER INTEGER encoding of one byte value
(values at and above 0x80 take a leading zero byte). -/
def derIntU8 (b : Nat) : List Nat :=
  if b < 128 then [2, 1, b] else [2, 2, 0, b]

/-- The unsigned big-endian value of a byte string. -/
def beNat (l : List Nat) : Nat := l.foldl (fun a b => a * 256 + b) 0

/-- The signed (two's complement, big-endian) value a DER INTEGER body
denotes. -/
def intValue : List Nat → Int
  | [] => 0
  | b :: bs =>
    (if b < 128 then (b : Int) else (b : Int) - 256) * (256 : Int) ^ bs.length +
      (beNat bs : Int)

/-! ## Infrastructure lemmas -/

lemma bindD_ok {α β : Type} (m : DecodeM α) (f : α → DecodeM β) (s s1 : List Nat)
    (a : α) (h : m s = .ok a s1) : bindD m f s = f a s1 := by
  simp [bindD, h]

lemma bindD_err {α β : Type} (m : DecodeM α) (f : α → DecodeM β) (s : List Nat)
    (e : DError) (h : m s = .err e) : bindD m f s = .err e := by
  simp [bindD, h]

lemma readByte_cons (b : Nat) (l : List Nat) : readByte (b :: l) = .ok b l := rfl

lemma beBytes_zero : beBytes 0 = [] := by simp [beBytes, leBytes]

lemma beBytes_pos (n : Nat) (h : 0 < n) :
    beBytes n = beBytes (n / 256) ++ [n % 256] := by
  unfold beBytes leBytes
  rw [Nat.digits_def' (by omega) h, List.reverse_cons]

/-- The big-endian digits of a positive number: nonempty, nonzero leading
digit, and folding them back recovers the number. -/
lemma beBytes_spec (n : Nat) (h : 0 < n) :
    ∃ b0 bs, beBytes n = b0 :: bs ∧ b0 ≠ 0 ∧
      List.foldl (fun a b => a * 256 + b) b0 bs = n := by
  induction n using Nat.strong_induction_on with
  | _ n ih =>
    by_cases hn : n < 256
    · refine ⟨n, [], ?_, by omega, by simp⟩
      unfold beBytes leBytes
      rw [Nat.digits_of_lt 256 n (by omega) hn]
      simp
    · have hdiv : 0 < n / 256 := Nat.div_pos (by omega) (by omega)
      obtain ⟨b0, bs, hbe, hb0, hfold⟩ :=
        ih (n / 256) (Nat.div_lt_self h (by omega)) hdiv
      refine ⟨b0, bs ++ [n % 256], ?_, hb0, ?_⟩
      · rw [beBytes_pos n h, hbe]
        simp
      · rw [List.foldl_append, hfold]
        simp only [List.foldl_cons, List.foldl_nil]
        omega

lemma readLenBytes_append (bs : List Nat) : ∀ (acc : Nat) (rest : List Nat),
    readLenBytes bs.length acc (bs ++ rest) =
      .ok (List.foldl (fun a b => a * 256 + b) acc bs) rest := by
  induction bs with
  | nil => intro acc rest; simp [readLenBytes, pureD]
  | cons b bs ih =>
    intro acc rest
    simp only [List.length_cons, List.cons_append, List.foldl_cons]
    show bindD readByte (fun x => readLenBytes bs.length (acc * 256 + x)) _ = _
    simp only [bindD, readByte]
    exact ih (acc * 256 + b) rest

/-- Round trip of the definite-length codec: reading back an encoded length
yields the length and leaves the rest untouched. -/
lemma readLength_encodeLength (n : Nat) (rest : List Nat) :
    readLength (encodeLength n ++ rest) = .ok n rest := by
  by_cases hn : n < 128
  · simp [encodeLength, hn, readLength, bindD, readByte, pureD]
  · obtain ⟨b0, bs, hbe, hb0, hfold⟩ := beBytes_spec n (by omega)
    have hcons : encodeLength n ++ rest =
        (bs.length + 129) :: b0 :: (bs ++ rest) := by
      simp [encodeLength, if_neg hn, hbe]
      omega
    rw [hcons]
    show bindD readByte _ _ = _
    simp only [bindD, readByte]
    rw [if_neg (by omega), if_neg (by omega)]
    show bindD readByte _ _ = _
    simp only [bindD, readByte]
    rw [if_neg hb0]
    have hk : bs.length + 129 - 129 = bs.length := by omega
    rw [hk]
    show bindD (readLenBytes bs.length b0) _ _ = _
    rw [bindD_ok _ _ _ _ _ (by rw [readLenBytes_append bs b0 rest, hfold])]
    show (if bs.length + 129 = 129 ∧ n < 128 then failD DError.malformedLength
      else pureD n) rest = DResult.ok n rest
    rw [if_neg (by omega)]
    rfl

lemma readBytes_append (l rest : List Nat) :
    readBytes l.length (l ++ rest) = .ok l rest := by
  simp [readBytes, List.take_left, List.drop_left]

lemma readBytes_all (s : List Nat) : readBytes s.length s = .ok s [] := by
  have := readBytes_append s []
  simpa using this

/-- The modelled opaque algorithm-identifier codec reads back exactly its
own encoding of a value whose tag byte is well formed. -/
lemma alg_decode_encodedBytes (a : AlgorithmIdentifierRef)
    (hwf : a.tag.byte % 32 ≠ 31) (rest : List Nat) :
    AlgorithmIdentifierRef.decode (a.encodedBytes ++ rest) = .ok a rest := by
  have hsh : a.encodedBytes ++ rest =
      a.tag.byte :: (encodeLength a.body.length ++ (a.body ++ rest)) := by
    simp [AlgorithmIdentifierRef.encodedBytes]
  rw [hsh]
  show bindD readHeader _ _ = _
  simp only [bindD, readHeader, readTag]
  rw [if_neg hwf]
  simp only [readLength_encodeLength, pureD]
  simp only [readBytes_append, pureD]

lemma decodeElems_nil (fuel : Nat) : decodeElems fuel [] = .ok [] [] := by
  cases fuel <;> rfl

lemma encodedBytes_length_pos (a : AlgorithmIdentifierRef) :
    0 < a.encodedBytes.length := by
  simp [AlgorithmIdentifierRef.encodedBytes]

/-- Reading elements from the concatenation of well-formed element encodings
recovers exactly those elements, for any sufficient fuel. -/
lemma decodeElems_flatten (algs : List AlgorithmIdentifierRef)
    (hwf : ∀ a ∈ algs, a.tag.byte % 32 ≠ 31) :
    ∀ fuel, (algs.map AlgorithmIdentifierRef.encodedBytes).flatten.length ≤ fuel →
      decodeElems fuel (algs.map AlgorithmIdentifierRef.encodedBytes).flatten =
        .ok algs [] := by
  induction algs with
  | nil => intro fuel _; simpa using decodeElems_nil fuel
  | cons a algs ih =>
    intro fuel hfuel
    have hflat : (List.map AlgorithmIdentifierRef.encodedBytes (a :: algs)).flatten =
        a.encodedBytes ++ (algs.map AlgorithmIdentifierRef.encodedBytes).flatten := by
      simp
    rw [hflat] at hfuel ⊢
    have hpos := encodedBytes_length_pos a
    rw [List.length_append] at hfuel
    cases fuel with
    | zero =>
      exfalso
      omega
    | succ fuel =>
      have hcons : a.encodedBytes ++ (algs.map AlgorithmIdentifierRef.encodedBytes).flatten =
          a.tag.byte :: (encodeLength a.body.length ++
            (a.body ++ (algs.map AlgorithmIdentifierRef.encodedBytes).flatten)) := by
        simp [AlgorithmIdentifierRef.encodedBytes]
      rw [hcons]
      show (bindD AlgorithmIdentifierRef.decode (fun x =>
        bindD (decodeElems fuel) (fun r => pureD (x :: r)))) _ = _
      rw [← hcons]
      rw [bindD_ok _ _ _ _ _ (alg_decode_encodedBytes a (hwf a (by simp)) _)]
      have hrec := ih (fun x hx => hwf x (by simp [hx])) fuel (by omega)
      rw [bindD_ok _ _ _ _ _ hrec]
      rfl

lemma bindD_panicked {α β : Type} (m : DecodeM α) (f : α → DecodeM β) (s : List Nat)
    (h : m s = .panicked) : bindD m f s = .panicked := by
  simp [bindD, h]

lemma readBytes_one_cons (b : Nat) (l : List Nat) : readBytes 1 (b :: l) = .ok [b] l := by
  simpa using readBytes_append [b] l

/-- Running the u8 INTEGER decoder over a header that carries exactly the
body's length. -/
lemma u8_decodeValue_run (t : Tag) (body rest : List Nat) :
    u8.decodeValue ⟨t, body.length⟩ (body ++ rest) = u8Finish body rest := by
  unfold u8.decodeValue
  rw [bindD_ok _ _ _ _ _ (show readBytes (Header.len ⟨t, body.length⟩) (body ++ rest) =
    .ok body rest from readBytes_append body rest)]

lemma u8_decodeValue_one (t : Tag) (v : Nat) (hv : v < 128) (rest : List Nat) :
    u8.decodeValue ⟨t, 1⟩ (v :: rest) = .ok v rest := by
  rw [show u8.decodeValue ⟨t, 1⟩ (v :: rest) = u8Finish [v] rest from
    u8_decodeValue_run t [v] rest]
  show (if v < 128 then DResult.ok v rest else DResult.err (.valueError .integer)) = _
  rw [if_pos hv]

lemma readTag_cons (b : Nat) (hb : b % 32 ≠ 31) (l : List Nat) :
    readTag (b :: l) = .ok (⟨b⟩ : Tag) l := by
  show (if b % 32 = 31 then DResult.err DError.malformedTag
    else DResult.ok (⟨b⟩ : Tag) l) = DResult.ok (⟨b⟩ : Tag) l
  rw [if_neg hb]

/-- A tag byte followed by an encoded length parses into the matching
header. -/
lemma readHeader_encodeLength (t : Nat) (ht : t % 32 ≠ 31) (n : Nat) (r : List Nat) :
    readHeader (t :: (encodeLength n ++ r)) = .ok ⟨⟨t⟩, n⟩ r := by
  unfold readHeader
  rw [bindD_ok _ _ _ _ _ (readTag_cons t ht (encodeLength n ++ r))]
  rw [bindD_ok _ _ _ _ _ (readLength_encodeLength n r)]
  rfl

/-- Running a fixed-tag blanket decode when the header parses with the
expected tag. -/
lemma decodeFixed_run {α : Type} (t : Tag) (dv : Header → DecodeM α)
    (s s1 : List Nat) (h : Header) (hh : readHeader s = .ok h s1)
    (ht : h.tag = t) : decodeFixed t dv s = dv h s1 := by
  unfold decodeFixed
  rw [bindD_ok _ _ _ _ _ hh]
  simp [ht]

/-- Running the nested reader when the byte read succeeds. -/
lemma readNested_run {α : Type} (n : Nat) (f : DecodeM α) (s body rest : List Nat)
    (hb : readBytes n s = .ok body rest) :
    readNested n f s = nestedFinish rest (f body) := by
  unfold readNested
  rw [bindD_ok _ _ _ _ _ hb]

/-- A version INTEGER at the head of the input decodes by range-checking its
byte. -/
lemma version_decode_cons (v : Nat) (hv : v < 128) (rest : List Nat) :
    Version.decode (2 :: 1 :: v :: rest) = liftExcept (Version.tryFrom v) rest := by
  unfold Version.decode
  rw [decodeFixed_run Tag.integer Version.decodeValue _ _ _
    (show readHeader (2 :: 1 :: v :: rest) = .ok ⟨⟨2⟩, 1⟩ (v :: rest) from rfl) rfl]
  unfold Version.decodeValue
  rw [bindD_ok _ _ _ _ _ (u8_decodeValue_one ⟨2⟩ v hv rest)]

/-- Strict-mode rejection at the set codec: a SET whose body is the
concatenation of element encodings that are not strictly ascending fails
with `NonCanonicalSetOrdering`, whatever follows the set. -/
lemma setAlg_decode_flatten_err (algs : List AlgorithmIdentifierRef)
    (hwf : ∀ a ∈ algs, a.tag.byte % 32 ≠ 31)
    (hord : ascendingStrict (algs.map AlgorithmIdentifierRef.encodedBytes) = false)
    (tail : List Nat) :
    SetOfVecAlg.decode
      (49 :: (encodeLength (algs.map AlgorithmIdentifierRef.encodedBytes).flatten.length ++
        ((algs.map AlgorithmIdentifierRef.encodedBytes).flatten ++ tail))) =
      .err .nonCanonicalSetOrdering := by
  unfold SetOfVecAlg.decode
  rw [decodeFixed_run Tag.set SetOfVecAlg.decodeValue _ _ _
    (readHeader_encodeLength 49 (by decide) _ _) rfl]
  unfold SetOfVecAlg.decodeValue
  rw [readNested_run _ _ _ _ _ (readBytes_append _ tail)]
  show nestedFinish tail (setFinish
    (decodeElems (algs.map AlgorithmIdentifierRef.encodedBytes).flatten.length
      (algs.map AlgorithmIdentifierRef.encodedBytes).flatten)) = _
  rw [decodeElems_flatten algs hwf _ (le_refl _)]
  simp [setFinish, nestedFinish, hord]

/-- Decoding a signed-data SEQUENCE whose header carries exactly the body's
length reduces to running the three field decoders over the body, the
trailing-data rule applied to what they leave. -/
lemma sdc_decode_shape (body : List Nat) :
    SignedDataContent.decode (48 :: (encodeLength body.length ++ body)) =
      nestedFinish [] ((bindD Version.decode (fun v => bindD SetOfVecAlg.decode (fun das =>
        bindD EncapsulatedContentInfo.decode (fun eci =>
          pureD (⟨v, das, eci⟩ : SignedDataContent))))) body) := by
  unfold SignedDataContent.decode
  rw [decodeFixed_run Tag.sequence SignedDataContent.decodeValue _ _ _
    (readHeader_encodeLength 48 (by decide) body.length body) rfl]
  unfold SignedDataContent.decodeValue
  rw [readNested_run _ _ _ _ _ (readBytes_all body)]

/-! ## Claim theorems -/

/-- C9: for every `Version` variant v, converting v to its u8 numeric value
and back through `TryFrom<u8>` returns exactly v. -/
theorem version_u8_roundtrip : ∀ v : Version, Version.tryFrom v.toU8 = Except.ok v := by
  intro v
  cases v <;> rfl

/-- C2: decoding the DER INTEGER encoding of a byte value as a `Version`
succeeds with the corresponding variant exactly for the values 1-5, and for
every other byte value (0 and 6 in particular) fails with the value error at
the INTEGER tag (the spec taxonomy's `InvalidVersion`); the value is never
clamped or defaulted. -/
theorem version_byte_decode_exact_range (b : Nat) (hb : b < 256) :
    Version.decode (derIntU8 b) =
      if b = 1 then .ok Version.v1 []
      else if b = 2 then .ok Version.v2 []
      else if b = 3 then .ok Version.v3 []
      else if b = 4 then .ok Version.v4 []
      else if b = 5 then .ok Version.v5 []
      else .err (.valueError .integer) := by
  by_cases h1 : b < 128
  · have hshape : derIntU8 b = 2 :: 1 :: b :: [] := by simp [derIntU8, h1]
    rw [hshape, version_decode_cons b h1 []]
    unfold Version.tryFrom liftExcept
    split_ifs <;> rfl
  · have hshape : derIntU8 b = [2, 2, 0, b] := by simp [derIntU8, h1]
    rw [hshape]
    unfold Version.decode
    rw [decodeFixed_run Tag.integer Version.decodeValue _ _ _
      (show readHeader [2, 2, 0, b] = .ok ⟨⟨2⟩, 2⟩ [0, b] from rfl) rfl]
    unfold Version.decodeValue
    have hu : u8.decodeValue ⟨⟨2⟩, 2⟩ [0, b] = .ok b [] := by
      rw [show u8.decodeValue ⟨⟨2⟩, 2⟩ [0, b] = u8Finish [0, b] [] from
        u8_decodeValue_run ⟨2⟩ [0, b] []]
      show (if (0 : Nat) = 0 ∧ 128 ≤ b ∧ b < 256 then DResult.ok b ([] : List Nat)
        else DResult.err (.valueError .integer)) = DResult.ok b []
      rw [if_pos ⟨rfl, by omega, hb⟩]
    rw [bindD_ok _ _ _ _ _ hu]
    show liftExcept (Version.tryFrom b) [] = _
    unfold Version.tryFrom liftExcept
    split_ifs <;> rfl

/-- C2 witness: the theorem instantiated at the rejected byte 6 and the
accepted byte 2. -/
theorem version_byte_decode_exact_range_witness :
    ((6 : Nat) < 256 ∧ Version.decode (derIntU8 6) = .err (.valueError .integer)) ∧
    ((2 : Nat) < 256 ∧ Version.decode (derIntU8 2) = .ok Version.v2 []) :=
  ⟨⟨by decide, version_byte_decode_exact_range 6 (by decide)⟩,
   ⟨by decide, version_byte_decode_exact_range 2 (by decide)⟩⟩

/-- C10: the version decoder routes the INTEGER body through the u8 decoder
before range-checking, so any INTEGER body whose denoted value does not fit
in one unsigned byte — negative, or above 255 — is rejected with the INTEGER
value error rather than truncated or wrapped into 1..5. -/
theorem version_decode_rejects_oversized_integer (body rest : List Nat)
    (hbytes : ∀ b ∈ body, b < 256)
    (hrange : intValue body < 0 ∨ 255 < intValue body) :
    Version.decode (2 :: (encodeLength body.length ++ (body ++ rest))) =
      .err (.valueError .integer) := by
  unfold Version.decode
  rw [decodeFixed_run Tag.integer Version.decodeValue _ _ _
    (readHeader_encodeLength 2 (by decide) body.length (body ++ rest)) rfl]
  unfold Version.decodeValue
  have hu : u8.decodeValue ⟨⟨2⟩, body.length⟩ (body ++ rest) =
      .err (.valueError .integer) := by
    rw [u8_decodeValue_run ⟨2⟩ body rest]
    rcases body with _ | ⟨b, _ | ⟨b1, _ | ⟨b2, bs⟩⟩⟩
    · rfl
    · show (if b < 128 then DResult.ok b rest
        else DResult.err (.valueError .integer)) = _
      have hbge : ¬b < 128 := by
        intro hlt
        have hval : intValue [b] = (b : Int) := by
          simp [intValue, beNat, hlt]
        rcases hrange with h | h <;> rw [hval] at h <;> omega
      rw [if_neg hbge]
    · show (if b = 0 ∧ 128 ≤ b1 ∧ b1 < 256 then DResult.ok b1 rest
        else DResult.err (.valueError .integer)) = _
      have hno : ¬(b = 0 ∧ 128 ≤ b1 ∧ b1 < 256) := by
        rintro ⟨hb0, hge, hlt⟩
        subst hb0
        have hval : intValue [0, b1] = (b1 : Int) := by
          norm_num [intValue, beNat]
        rcases hrange with h | h <;> rw [hval] at h <;> omega
      rw [if_neg hno]
    · rfl
  rw [bindD_err _ _ _ _ hu]

/-- C10 witness: the theorem at the two-byte INTEGER body denoting 256. -/
theorem version_decode_rejects_oversized_integer_witness :
    (∀ b ∈ [1, 0], b < 256) ∧ (intValue [1, 0] < 0 ∨ 255 < intValue [1, 0]) ∧
      Version.decode [2, 2, 1, 0] = .err (.valueError .integer) :=
  ⟨by decide, by decide,
    version_decode_rejects_oversized_integer [1, 0] [] (by decide) (by decide)⟩

/-- C7: a digest-algorithms SET OF whose encoded elements are not in strictly
ascending byte order of their own DER encodings (byte-identical duplicates
included, since the order must be strict) makes `SignedDataContent` decoding
fail with `NonCanonicalSetOrdering`, for every version 1-5 and whatever
bytes follow the set inside the SEQUENCE. -/
theorem digest_set_noncanonical_rejected (v : Nat) (hv1 : 1 ≤ v) (hv5 : v ≤ 5)
    (algs : List AlgorithmIdentifierRef) (hwf : ∀ a ∈ algs, a.tag.byte % 32 ≠ 31)
    (hord : ascendingStrict (algs.map AlgorithmIdentifierRef.encodedBytes) = false)
    (tail : List Nat) :
    SignedDataContent.decode (mkSignedData v algs tail) =
      .err .nonCanonicalSetOrdering := by
  obtain ⟨w, hw⟩ : ∃ w, Version.tryFrom v = Except.ok w := by
    interval_cases v <;> exact ⟨_, rfl⟩
  show SignedDataContent.decode
    (48 :: (encodeLength (2 :: 1 :: v :: (49 ::
      (encodeLength (algs.map AlgorithmIdentifierRef.encodedBytes).flatten.length ++
        ((algs.map AlgorithmIdentifierRef.encodedBytes).flatten ++ tail)))).length ++
      (2 :: 1 :: v :: (49 ::
      (encodeLength (algs.map AlgorithmIdentifierRef.encodedBytes).flatten.length ++
        ((algs.map AlgorithmIdentifierRef.encodedBytes).flatten ++ tail)))))) = _
  rw [sdc_decode_shape]
  rw [bindD_ok _ _ _ _ _ (show Version.decode (2 :: 1 :: v :: (49 ::
      (encodeLength (algs.map AlgorithmIdentifierRef.encodedBytes).flatten.length ++
        ((algs.map AlgorithmIdentifierRef.encodedBytes).flatten ++ tail)))) = .ok w
      (49 :: (encodeLength (algs.map AlgorithmIdentifierRef.encodedBytes).flatten.length ++
        ((algs.map AlgorithmIdentifierRef.encodedBytes).flatten ++ tail))) from by
    rw [version_decode_cons v (by omega), hw]
    rfl)]
  show nestedFinish [] (bindD SetOfVecAlg.decode (fun das =>
    bindD EncapsulatedContentInfo.decode (fun eci =>
      pureD (⟨w, das, eci⟩ : SignedDataContent)))
    (49 :: (encodeLength (algs.map AlgorithmIdentifierRef.encodedBytes).flatten.length ++
      ((algs.map AlgorithmIdentifierRef.encodedBytes).flatten ++ tail)))) = _
  rw [bindD_err _ _ _ _ (setAlg_decode_flatten_err algs hwf hord tail)]
  rfl

/-- C7 witness: a version-1 signed-data SEQUENCE whose two-element
digest-algorithm SET is in descending byte order is rejected with
`NonCanonicalSetOrdering`. -/
theorem digest_set_noncanonical_rejected_witness :
    ((1 : Nat) ≤ 1 ∧ (1 : Nat) ≤ 5) ∧
    (∀ a ∈ [(⟨⟨48⟩, [5]⟩ : AlgorithmIdentifierRef), ⟨⟨48⟩, [4]⟩],
      a.tag.byte % 32 ≠ 31) ∧
    ascendingStrict (([(⟨⟨48⟩, [5]⟩ : AlgorithmIdentifierRef), ⟨⟨48⟩, [4]⟩]).map
      AlgorithmIdentifierRef.encodedBytes) = false ∧
    SignedDataContent.decode (mkSignedData 1 [⟨⟨48⟩, [5]⟩, ⟨⟨48⟩, [4]⟩] []) =
      .err .nonCanonicalSetOrdering :=
  ⟨⟨by decide, by decide⟩, by decide, by decide,
    digest_set_noncanonical_rejected 1 (by decide) (by decide) _ (by decide) (by decide) []⟩

/-- C8: the signed-data SEQUENCE body is read in strict fixed order — the
version first from the front, the digest-algorithm set from exactly where
the version decoder stopped, the encapsulated content info from exactly
where the set decoder stopped, the trailing-data rule applied to what it
leaves — and the tag peek used at each optional or choice decision point
never consumes input, so no backtracking arises. -/
theorem signed_data_field_order (vb sb rest : List Nat) (v : Version)
    (das : List AlgorithmIdentifierRef)
    (hV : Version.decode (vb ++ (sb ++ rest)) = .ok v (sb ++ rest))
    (hS : SetOfVecAlg.decode (sb ++ rest) = .ok das rest) :
    (∀ s u t, peekTag s = .ok t u → u = s) ∧
    SignedDataContent.decodeValue ⟨Tag.sequence, (vb ++ (sb ++ rest)).length⟩
        (vb ++ (sb ++ rest)) =
      match EncapsulatedContentInfo.decode rest with
      | .ok eci [] => .ok (⟨v, das, eci⟩ : SignedDataContent) []
      | .ok _ (_ :: _) => .err .trailingData
      | .err e => .err e
      | .panicked => .panicked := by
  constructor
  · intro s u t h
    cases s with
    | nil => exact absurd h (by simp [peekTag])
    | cons b l =>
      simp only [peekTag] at h
      by_cases hb : b % 32 = 31
      · rw [if_pos hb] at h
        exact absurd h (by simp)
      · rw [if_neg hb] at h
        injection h with h1 h2
        exact h2.symm
  · unfold SignedDataContent.decodeValue
    rw [readNested_run _ _ _ _ _
      (show readBytes (Header.len ⟨Tag.sequence, (vb ++ (sb ++ rest)).length⟩)
        (vb ++ (sb ++ rest)) = .ok (vb ++ (sb ++ rest)) [] from
        readBytes_all (vb ++ (sb ++ rest)))]
    rw [bindD_ok _ _ _ _ _ hV]
    show nestedFinish [] (bindD SetOfVecAlg.decode (fun das2 =>
      bindD EncapsulatedContentInfo.decode (fun eci =>
        pureD (⟨v, das2, eci⟩ : SignedDataContent))) (sb ++ rest)) = _
    rw [bindD_ok _ _ _ _ _ hS]
    show nestedFinish [] (bindD EncapsulatedContentInfo.decode (fun eci =>
      pureD (⟨v, das, eci⟩ : SignedDataContent)) rest) = _
    cases hE : EncapsulatedContentInfo.decode rest with
    | ok eci rem =>
      rw [bindD_ok _ _ _ _ _ hE]
      cases rem with
      | nil => rfl
      | cons x xs => rfl
    | err e =>
      rw [bindD_err _ _ _ _ hE]
      rfl
    | panicked =>
      rw [bindD_panicked _ _ _ hE]
      rfl

/-- C8 witness: the theorem at a version-1 header followed by an empty set
and nothing further; the encapsulated-content decoder then runs at once and
reports the missing SEQUENCE. -/
theorem signed_data_field_order_witness :
    (Version.decode ([2, 1, 1] ++ ([49, 0] ++ [])) = .ok Version.v1 ([49, 0] ++ [])) ∧
    (SetOfVecAlg.decode ([49, 0] ++ []) = .ok [] []) ∧
    ((∀ s u t, peekTag s = .ok t u → u = s) ∧
      SignedDataContent.decodeValue ⟨Tag.sequence, 5⟩ [2, 1, 1, 49, 0] =
        .err .prematureEof) := by
  have h := signed_data_field_order [2, 1, 1] [49, 0] [] Version.v1 []
    (by decide) (by decide)
  exact ⟨by decide, by decide, h.1, h.2⟩

/-- C1 (code bug): the claimed decode-encode round trip fails on the code.
The active source has no encoder for `SignedDataContent` (its `Sequence`
impl is commented out), and decoding the spec-mandated encoding of the valid
value {version 1, empty digest set, pkcs7-data content type, octet-string
content "hello"} panics inside `Content::decode` (`unimplemented!()`)
instead of returning the value. -/
theorem roundtrip_decode_of_specEncode_aborts :
    SignedDataContent.decode (SignedDataContent.specEncode
      ⟨Version.v1, [], ⟨⟨[42, 134, 72, 134, 247, 13, 1, 7, 1]⟩,
        Content.octetString (some ⟨[104, 101, 108, 108, 111]⟩)⟩⟩) = .panicked := by
  decide

/-- C3 (code bug): on an EXPLICIT context-tag-0 wrapper holding an OCTET
STRING, `Content::decode` does not inspect the inner tag and produce
`Content::OctetString`; it peeks the outer tag and hits `unimplemented!()`,
i.e. it panics. -/
theorem content_decode_aborts_on_wrapped_payload :
    Content.decode [160, 2, 4, 0] = .panicked := by
  decide

/-- C4 (code bug): decoding a well-formed `SignedDataContent` whose content
is present does not return a typed result — the code reaches
`unimplemented!()` inside `Content::decode` and panics. -/
theorem signed_data_decode_aborts_on_wellformed_input :
    SignedDataContent.decode
      [48, 22, 2, 1, 1, 49, 0, 48, 15, 6, 9, 42, 134, 72, 134, 247, 13, 1, 7, 1,
        160, 2, 4, 0] = .panicked := by
  decide

/-- C5 (code bug): an `EncapsulatedContentInfo` SEQUENCE holding only the
content-type OID does not decode to a value with absent content; the code
unconditionally decodes a `Content`, whose tag peek at the end of the scope
fails, so the decode returns a premature-end error. -/
theorem encap_content_absent_content_is_error :
    EncapsulatedContentInfo.decode
      [48, 11, 6, 9, 42, 134, 72, 134, 247, 13, 1, 7, 1] = .err .prematureEof := by
  decide

/-- C6 (code bug): a signed-data SEQUENCE with bytes remaining after the
three decoded fields does not fail with an `UnsupportedField` error (no such
error exists in the code); on this input the decode panics inside
`Content::decode` before the trailing bytes are even examined. -/
theorem signed_data_trailing_bytes_abort_unreported :
    SignedDataContent.decode
      [48, 24, 2, 1, 1, 49, 0, 48, 15, 6, 9, 42, 134, 72, 134, 247, 13, 1, 7, 1,
        160, 2, 4, 0, 7, 7] = .panicked := by
  decide

end Pkcs7
